import Mathlib

/-!
# pillApp: the in-memory medication registry of `app.go`

A shallow embedding of the five HTTP handlers of `app.go` and of the `Server`
they share, followed by the properties of the registry.

Modelling decisions.

* `map[string]*Medication` is a finite map.  It is represented by `MedMap`, an
  association list whose keys are pairwise distinct (the proof is a field of
  the structure, so every value of the type is a genuine Go map).  The order
  of the entries in the list carries no meaning: the order in which a Go
  `range` loop visits a map is chosen by the runtime, and is an explicit
  argument of `getAllMedications`.
* The map stores pointers.  Every pointer stored is the address of the
  handler-local `med` of one `addMedication` call, it is stored under one key
  only and is never handed out, so the pointed-to records are modelled by
  value: the assignment `existingMed.Count = med.Count` rewrites the record
  stored under the key that was looked up.
* `sync.Mutex`: every handler holds `s.mu` from before its first access to the
  map until it returns, so a handler is one atomic transition
  `Server → Server × Response`.
* `encoding/json` and `net/url` are library code.  A request carries the
  outcome of `json.NewDecoder(r.Body).Decode(&med)` (`none` when it returns an
  error) and the parsed query `r.URL.Query()`; a response carries its status
  code and a structured body.
* `Count` is a Go `int`; no handler computes with it, so it is an `Int`.
-/

namespace PillApp

/-! ## Data model -/

/-- The record `Medication` of `app.go`. -/
structure Medication where
  Name : String
  Count : Int
  Dosage : String
deriving DecidableEq, Repr

/-- Association lists: the value bound to the first entry with key `k`. -/
def lookupEntries (k : String) : List (String × Medication) → Option Medication
  | [] => none
  | e :: t => if e.1 = k then some e.2 else lookupEntries k t

/-- Association lists: drop every entry with key `k`. -/
def eraseEntries (k : String) (l : List (String × Medication)) :
    List (String × Medication) :=
  l.filter (fun e => decide (e.1 ≠ k))

/-- Association lists: apply `f` to the value of every entry with key `k`. -/
def modifyEntries (k : String) (f : Medication → Medication)
    (l : List (String × Medication)) : List (String × Medication) :=
  l.map (fun e => if e.1 = k then (e.1, f e.2) else e)

/-- A Go `map[string]*Medication`: finitely many entries, no key twice. -/
structure MedMap where
  entries : List (String × Medication)
  nodupKeys : (entries.map Prod.fst).Nodup

namespace MedMap

/-- The result of `make(map[string]*Medication)`. -/
def empty : MedMap := ⟨[], List.nodup_nil⟩

/-- The keys of the map. -/
def keys (m : MedMap) : List String := m.entries.map Prod.fst

/-- The records of the map, one for each key. -/
def values (m : MedMap) : List Medication := m.entries.map Prod.snd

/-- The number of entries, `len(m)`. -/
def len (m : MedMap) : Nat := m.entries.length

/-- The two-valued index expression `v, ok := m[k]`: `none` stands for
`ok == false`. -/
def get? (m : MedMap) (k : String) : Option Medication := lookupEntries k m.entries

/-- The assignment `m[k] = v`: the entry of `k` is created or replaced. -/
def insert (m : MedMap) (k : String) (v : Medication) : MedMap :=
  ⟨(k, v) :: eraseEntries k m.entries,
    List.nodup_cons.mpr ⟨by simp [eraseEntries],
      m.nodupKeys.sublist ((List.filter_sublist m.entries).map Prod.fst)⟩⟩

/-- The builtin `delete(m, k)`; a no-op when `k` is not a key. -/
def delete (m : MedMap) (k : String) : MedMap :=
  ⟨eraseEntries k m.entries,
    m.nodupKeys.sublist ((List.filter_sublist m.entries).map Prod.fst)⟩

/-- A write through the pointer stored under `k`: the record it points to
becomes `f` of itself, the map itself is not touched. -/
def modify (m : MedMap) (k : String) (f : Medication → Medication) : MedMap :=
  ⟨modifyEntries k f m.entries, by
    have hkeys : (modifyEntries k f m.entries).map Prod.fst = m.entries.map Prod.fst := by
      unfold modifyEntries
      rw [List.map_map]
      apply List.map_congr_left
      intro e _
      by_cases he : e.1 = k <;> simp [he]
    rw [hkeys]
    exact m.nodupKeys⟩

/-- The entries a `range` loop over the map visits when the runtime picks the
keys in the order `order`. -/
def range (m : MedMap) (order : List String) : List (String × Medication) :=
  order.filterMap (fun k => (m.get? k).map (fun v => (k, v)))

end MedMap

/-- The struct `Server`; the mutex `mu` is the atomicity of the handlers. -/
structure Server where
  medications : MedMap

/-- The constructor `NewServer`: a server with an empty map. -/
def NewServer : Server := ⟨MedMap.empty⟩

/-! ## Requests and responses -/

/-- The parsed query of a request, `url.Values`, as the key/value pairs of the
query string in their order. -/
abbrev Values := List (String × String)

/-- The method `url.Values.Get`: the first value of `key`, `""` when there is
none. -/
def Values.Get (v : Values) (key : String) : String :=
  match v.find? (fun p => decide (p.1 = key)) with
  | some p => p.2
  | none => ""

/-- What a handler reads of its `*http.Request`: the query of the URL and the
outcome of decoding the body as a `Medication` (`none`: `Decode` returned an
error). -/
structure Request where
  query : Values
  body : Option Medication

/-- The body written to the `http.ResponseWriter`. -/
inductive Body where
  | empty
  | text (msg : String)
  | medication (med : Medication)
  | medications (meds : List Medication)
deriving DecidableEq, Repr

/-- The response of a handler: status code and body. -/
structure Response where
  status : Nat
  body : Body
deriving DecidableEq, Repr

def StatusOK : Nat := 200
def StatusCreated : Nat := 201
def StatusBadRequest : Nat := 400
def StatusNotFound : Nat := 404
def StatusConflict : Nat := 409

/-- The helper `http.Error(w, msg, code)`: the status `code` and the message
followed by a newline. -/
def httpError (msg : String) (code : Nat) : Response := ⟨code, Body.text (msg ++ "\n")⟩

/-- The call `w.WriteHeader(code)` with nothing written after it. -/
def writeHeader (code : Nat) : Response := ⟨code, Body.empty⟩

/-- The call `json.NewEncoder(w).Encode(med)` as first write: status 200. -/
def encodeMedication (med : Medication) : Response := ⟨StatusOK, Body.medication med⟩

/-- The call `json.NewEncoder(w).Encode(medications)` as first write. -/
def encodeMedications (meds : List Medication) : Response :=
  ⟨StatusOK, Body.medications meds⟩

/-! ## The handlers -/

/-- The handler `addMedication`. -/
def addMedication (s : Server) (r : Request) : Server × Response :=
  match r.body with
  | none => (s, httpError "Invalid request payload" StatusBadRequest)
  | some med =>
    match s.medications.get? med.Name with
    | some _ => (s, httpError "Medication already exists" StatusConflict)
    | none => (⟨s.medications.insert med.Name med⟩, writeHeader StatusCreated)

/-- The handler `getMedication`. -/
def getMedication (s : Server) (r : Request) : Server × Response :=
  let name := r.query.Get "name"
  if name = "" then (s, httpError "Missing medication name" StatusBadRequest)
  else
    match s.medications.get? name with
    | none => (s, httpError "Medication not found" StatusNotFound)
    | some med => (s, encodeMedication med)

/-- The handler `getAllMedications`; `order` is the order in which the
runtime makes the `range` loop visit the keys. -/
def getAllMedications (s : Server) (order : List String) (_r : Request) :
    Server × Response :=
  let medications :=
    (s.medications.range order).foldl (fun acc e => acc ++ [e.2]) ([] : List Medication)
  (s, encodeMedications medications)

/-- The handler `updateMedicationCount`. -/
def updateMedicationCount (s : Server) (r : Request) : Server × Response :=
  match r.body with
  | none => (s, httpError "Invalid request payload" StatusBadRequest)
  | some med =>
    match s.medications.get? med.Name with
    | none => (s, httpError "Medication not found" StatusNotFound)
    | some _ =>
      (⟨s.medications.modify med.Name (fun existingMed => { existingMed with Count := med.Count })⟩,
        writeHeader StatusOK)

/-- The handler `deleteMedication`. -/
def deleteMedication (s : Server) (r : Request) : Server × Response :=
  let name := r.query.Get "name"
  if name = "" then (s, httpError "Missing medication name" StatusBadRequest)
  else
    match s.medications.get? name with
    | none => (s, httpError "Medication not found" StatusNotFound)
    | some _ => (⟨s.medications.delete name⟩, writeHeader StatusOK)

/-- The five patterns registered by `routes`. -/
inductive Route where
  | add
  | get
  | getAll
  | update
  | delete
deriving DecidableEq, Repr

/-- The table of `routes`: the handler registered for each pattern. -/
def routes (s : Server) (order : List String) : Route → Request → Server × Response
  | Route.add => addMedication s
  | Route.get => getMedication s
  | Route.getAll => getAllMedications s order
  | Route.update => updateMedicationCount s
  | Route.delete => deleteMedication s

/-- The registry states the process can be in: that of `NewServer`, and the
state any handler leaves behind when it serves a request in such a state. -/
inductive Reachable : Server → Prop where
  | init : Reachable NewServer
  | step {s : Server} (order : List String) (route : Route) (r : Request) :
      Reachable s → Reachable (routes s order route r).1

/-- Every key is the name of the record stored under it. -/
def KeysAreNames (s : Server) : Prop :=
  ∀ e ∈ s.medications.entries, e.2.Name = e.1

/-! ## Sample data -/

/-- The record of the scenario of the specification. -/
def aspirin : Medication := ⟨"Aspirin", 10, "500mg"⟩

/-- A second record. -/
def ibuprofen : Medication := ⟨"Ibuprofen", 20, "200mg"⟩

/-- A third record. -/
def zinc : Medication := ⟨"Zinc", 3, "15mg"⟩

/-- A request whose body decodes to `med`. -/
def bodyRequest (med : Medication) : Request := ⟨[], some med⟩

/-- A request whose query is `?name=<name>`. -/
def nameRequest (name : String) : Request := ⟨[("name", name)], none⟩

/-- A server holding `aspirin` and `ibuprofen`. -/
def sampleServer : Server :=
  ⟨⟨[("Aspirin", aspirin), ("Ibuprofen", ibuprofen)], by decide⟩⟩

/-- A state that holds a record under the empty name. -/
def namelessServer : Server := ⟨⟨[("", ⟨"", 1, "10mg"⟩)], by decide⟩⟩

/-! ## Batches of add requests -/

/-- The name an add request asks for: that of the record its body decodes to. -/
def decodedName (r : Request) : Option String := r.body.map Medication.Name

/-- Whether the body of `r` decodes to a record named `n`. -/
def named (n : String) (r : Request) : Bool :=
  match r.body with
  | some med => decide (med.Name = n)
  | none => false

/-- Whether `p` is a request named `n` together with an answer of status
`code`. -/
def answered (n : String) (code : Nat) (p : Request × Response) : Bool :=
  named n p.1 && decide (p.2.status = code)

/-- The add requests of `sched` served one after the other, in the order in
which their handlers acquire `s.mu`: the final state and every request with
its answer.  `addMedication` works on its local `med` until `s.mu.Lock()` and
returns holding the lock, so requests that run concurrently are served in
some order of the batch. -/
def serveAdds (s : Server) : List Request → Server × List (Request × Response)
  | [] => (s, [])
  | r :: rs =>
    ((serveAdds (addMedication s r).1 rs).1,
      (r, (addMedication s r).2) :: (serveAdds (addMedication s r).1 rs).2)

/-- A batch of four adds: "Aspirin" twice with different data, "Ibuprofen" and
"Zinc" once each. -/
def sampleBatch : List Request :=
  [bodyRequest aspirin, bodyRequest ibuprofen, bodyRequest ⟨"Aspirin", 7, "1g"⟩,
    bodyRequest zinc]

/-- The batch `sampleBatch` served last request first, so that the second
"Aspirin" is served before the first. -/
def sampleSchedule : List Request := sampleBatch.reverse

/-! ## Facts about the map operations -/

theorem not_mem_eraseEntries_keys (k : String) (l : List (String × Medication)) :
    k ∉ (eraseEntries k l).map Prod.fst := by
  simp [eraseEntries]

theorem modifyEntries_keys (k : String) (f : Medication → Medication)
    (l : List (String × Medication)) :
    (modifyEntries k f l).map Prod.fst = l.map Prod.fst := by
  induction l with
  | nil => rfl
  | cons e t ih =>
    simp only [modifyEntries, List.map_cons] at ih ⊢
    rw [ih]
    by_cases h : e.1 = k <;> simp [h]

theorem lookupEntries_eq_none_iff (k : String) (l : List (String × Medication)) :
    lookupEntries k l = none ↔ k ∉ l.map Prod.fst := by
  induction l with
  | nil => simp [lookupEntries]
  | cons e t ih =>
    by_cases h : e.1 = k
    · simp [lookupEntries, h]
    · have h' : ¬ k = e.1 := fun hk => h hk.symm
      simp [lookupEntries, h, h', ih]

theorem lookupEntries_of_mem {k : String} {v : Medication} {l : List (String × Medication)}
    (hnd : (l.map Prod.fst).Nodup) (hmem : (k, v) ∈ l) : lookupEntries k l = some v := by
  induction l with
  | nil => simp at hmem
  | cons e t ih =>
    rw [List.map_cons, List.nodup_cons] at hnd
    rcases List.mem_cons.mp hmem with h | h
    · subst h
      simp [lookupEntries]
    · have hne : e.1 ≠ k := by
        intro he
        apply hnd.1
        rw [he]
        exact List.mem_map.mpr ⟨(k, v), h, rfl⟩
      simp [lookupEntries, hne, ih hnd.2 h]

theorem mem_of_lookupEntries {k : String} {v : Medication} {l : List (String × Medication)}
    (h : lookupEntries k l = some v) : (k, v) ∈ l := by
  induction l with
  | nil => simp [lookupEntries] at h
  | cons e t ih =>
    by_cases he : e.1 = k
    · simp only [lookupEntries, he, if_true, Option.some.injEq] at h
      rw [← he, ← h]
      exact List.mem_cons_self _ _
    · simp only [lookupEntries, he, if_false] at h
      exact List.mem_cons_of_mem _ (ih h)

theorem lookupEntries_erase_self (k : String) (l : List (String × Medication)) :
    lookupEntries k (eraseEntries k l) = none :=
  (lookupEntries_eq_none_iff k _).mpr (not_mem_eraseEntries_keys k l)

theorem eraseEntries_cons_of_eq {k : String} {e : String × Medication} (h : e.1 = k)
    (t : List (String × Medication)) : eraseEntries k (e :: t) = eraseEntries k t := by
  simp [eraseEntries, h]

theorem eraseEntries_cons_of_ne {k : String} {e : String × Medication} (h : e.1 ≠ k)
    (t : List (String × Medication)) : eraseEntries k (e :: t) = e :: eraseEntries k t := by
  simp [eraseEntries, h]

theorem lookupEntries_cons_of_ne {k : String} {e : String × Medication} (h : e.1 ≠ k)
    (t : List (String × Medication)) : lookupEntries k (e :: t) = lookupEntries k t := by
  simp [lookupEntries, h]

theorem lookupEntries_cons_of_eq {k : String} {e : String × Medication} (h : e.1 = k)
    (t : List (String × Medication)) : lookupEntries k (e :: t) = some e.2 := by
  simp [lookupEntries, h]

theorem lookupEntries_erase_ne {k k' : String} (h : k' ≠ k) (l : List (String × Medication)) :
    lookupEntries k' (eraseEntries k l) = lookupEntries k' l := by
  induction l with
  | nil => rfl
  | cons e t ih =>
    by_cases he : e.1 = k
    · have hk : e.1 ≠ k' := fun h' => h (h'.symm.trans he)
      rw [eraseEntries_cons_of_eq he, lookupEntries_cons_of_ne hk, ih]
    · rw [eraseEntries_cons_of_ne he]
      by_cases hk : e.1 = k'
      · rw [lookupEntries_cons_of_eq hk, lookupEntries_cons_of_eq hk]
      · rw [lookupEntries_cons_of_ne hk, lookupEntries_cons_of_ne hk, ih]

theorem modifyEntries_cons_of_eq {k : String} {e : String × Medication} (h : e.1 = k)
    (f : Medication → Medication) (t : List (String × Medication)) :
    modifyEntries k f (e :: t) = (e.1, f e.2) :: modifyEntries k f t := by
  simp [modifyEntries, h]

theorem modifyEntries_cons_of_ne {k : String} {e : String × Medication} (h : e.1 ≠ k)
    (f : Medication → Medication) (t : List (String × Medication)) :
    modifyEntries k f (e :: t) = e :: modifyEntries k f t := by
  simp [modifyEntries, h]

theorem lookupEntries_modify_self (k : String) (f : Medication → Medication)
    (l : List (String × Medication)) :
    lookupEntries k (modifyEntries k f l) = (lookupEntries k l).map f := by
  induction l with
  | nil => rfl
  | cons e t ih =>
    by_cases he : e.1 = k
    · rw [modifyEntries_cons_of_eq he, lookupEntries_cons_of_eq he,
        lookupEntries_cons_of_eq (e := (e.1, f e.2)) he]
      rfl
    · rw [modifyEntries_cons_of_ne he, lookupEntries_cons_of_ne he,
        lookupEntries_cons_of_ne he, ih]

theorem lookupEntries_modify_ne {k k' : String} (h : k' ≠ k) (f : Medication → Medication)
    (l : List (String × Medication)) :
    lookupEntries k' (modifyEntries k f l) = lookupEntries k' l := by
  induction l with
  | nil => rfl
  | cons e t ih =>
    by_cases he : e.1 = k
    · have hk : e.1 ≠ k' := fun h' => h (h'.symm.trans he)
      rw [modifyEntries_cons_of_eq he, lookupEntries_cons_of_ne hk,
        lookupEntries_cons_of_ne (e := (e.1, f e.2)) hk, ih]
    · rw [modifyEntries_cons_of_ne he]
      by_cases hk : e.1 = k'
      · rw [lookupEntries_cons_of_eq hk, lookupEntries_cons_of_eq hk]
      · rw [lookupEntries_cons_of_ne hk, lookupEntries_cons_of_ne hk, ih]

namespace MedMap

theorem get?_eq_none_iff (m : MedMap) (k : String) : m.get? k = none ↔ k ∉ m.keys :=
  lookupEntries_eq_none_iff k m.entries

theorem get?_eq_some_iff (m : MedMap) (k : String) (v : Medication) :
    m.get? k = some v ↔ (k, v) ∈ m.entries :=
  ⟨mem_of_lookupEntries, lookupEntries_of_mem m.nodupKeys⟩

theorem get?_isSome_of_mem_keys {m : MedMap} {k : String} (h : k ∈ m.keys) :
    ∃ v, m.get? k = some v := by
  cases hg : m.get? k with
  | none => exact absurd h ((m.get?_eq_none_iff k).mp hg)
  | some v => exact ⟨v, rfl⟩

theorem get?_insert_self (m : MedMap) (k : String) (v : Medication) :
    (m.insert k v).get? k = some v := by
  simp [get?, insert, lookupEntries]

theorem get?_insert_ne (m : MedMap) {k k' : String} (h : k' ≠ k) (v : Medication) :
    (m.insert k v).get? k' = m.get? k' := by
  have hk : ¬ k = k' := fun h' => h h'.symm
  simp [get?, insert, lookupEntries, hk, lookupEntries_erase_ne h]

theorem mem_keys_insert (m : MedMap) (k k' : String) (v : Medication) :
    k' ∈ (m.insert k v).keys ↔ k' = k ∨ k' ∈ m.keys := by
  by_cases h : k' = k
  · subst h
    simp [keys, insert]
  · have h1 := m.get?_eq_none_iff k'
    have h2 := (m.insert k v).get?_eq_none_iff k'
    rw [get?_insert_ne m h v] at h2
    constructor
    · intro hin
      right
      by_contra hc
      exact (h2.mp (h1.mpr hc)) hin
    · rintro (hk | hin)
      · exact absurd hk h
      · by_contra hc
        exact (h1.mp (h2.mpr hc)) hin

theorem get?_delete_self (m : MedMap) (k : String) : (m.delete k).get? k = none :=
  lookupEntries_erase_self k m.entries

theorem get?_delete_ne (m : MedMap) {k k' : String} (h : k' ≠ k) :
    (m.delete k).get? k' = m.get? k' :=
  lookupEntries_erase_ne h m.entries

theorem mem_keys_delete (m : MedMap) (k k' : String) :
    k' ∈ (m.delete k).keys ↔ k' ∈ m.keys ∧ k' ≠ k := by
  simp only [keys, delete, eraseEntries, List.mem_map, List.mem_filter]
  constructor
  · rintro ⟨e, ⟨he, hne⟩, rfl⟩
    exact ⟨⟨e, he, rfl⟩, by simpa using hne⟩
  · rintro ⟨⟨e, he, rfl⟩, hne⟩
    exact ⟨e, ⟨he, by simpa using hne⟩, rfl⟩

theorem length_eraseEntries_of_mem {k : String} {l : List (String × Medication)}
    (hnd : (l.map Prod.fst).Nodup) (hmem : k ∈ l.map Prod.fst) :
    (eraseEntries k l).length + 1 = l.length := by
  induction l with
  | nil => simp at hmem
  | cons e t ih =>
    rw [List.map_cons, List.nodup_cons] at hnd
    by_cases he : e.1 = k
    · rw [eraseEntries_cons_of_eq he]
      have hnot : k ∉ t.map Prod.fst := he ▸ hnd.1
      have hsame : eraseEntries k t = t := by
        unfold eraseEntries
        rw [List.filter_eq_self]
        intro a ha
        have : a.1 ≠ k := fun hk => hnot (List.mem_map.mpr ⟨a, ha, hk⟩)
        simpa using this
      rw [hsame, List.length_cons]
    · rw [eraseEntries_cons_of_ne he, List.length_cons, List.length_cons]
      rw [List.map_cons, List.mem_cons] at hmem
      rcases hmem with h | h
      · exact absurd h.symm he
      · rw [ih hnd.2 h]

theorem len_delete_of_mem {m : MedMap} {k : String} (h : k ∈ m.keys) :
    (m.delete k).len + 1 = m.len :=
  length_eraseEntries_of_mem m.nodupKeys h

theorem get?_modify_self (m : MedMap) (k : String) (f : Medication → Medication) :
    (m.modify k f).get? k = (m.get? k).map f :=
  lookupEntries_modify_self k f m.entries

theorem get?_modify_ne (m : MedMap) {k k' : String} (h : k' ≠ k)
    (f : Medication → Medication) : (m.modify k f).get? k' = m.get? k' :=
  lookupEntries_modify_ne h f m.entries

theorem keys_modify (m : MedMap) (k : String) (f : Medication → Medication) :
    (m.modify k f).keys = m.keys :=
  modifyEntries_keys k f m.entries

end MedMap


/-! ## The claims -/

/-- C1. Add/Get round trip: when the body of the request decodes to a record
`med` with a non-empty name that is not a key of the registry, `addMedication`
answers 201 Created with an empty body and stores `med` unmodified under
`med.Name` (every other key keeps its binding, the keys are the old ones and
`med.Name`); in the resulting state `getMedication` on any request whose
`name` parameter is `med.Name` answers 200 with exactly `med` (same name,
count and dosage) and leaves the state as it is. -/
theorem add_get_roundtrip (s : Server) (r : Request) (med : Medication)
    (hbody : r.body = some med) (hname : med.Name ≠ "")
    (hfresh : med.Name ∉ s.medications.keys) :
    (addMedication s r).2 = ⟨201, Body.empty⟩ ∧
    (addMedication s r).1.medications.get? med.Name = some med ∧
    (∀ k, k ≠ med.Name →
      (addMedication s r).1.medications.get? k = s.medications.get? k) ∧
    (∀ k, k ∈ (addMedication s r).1.medications.keys ↔ k = med.Name ∨ k ∈ s.medications.keys) ∧
    (∀ g : Request, g.query.Get "name" = med.Name →
      getMedication (addMedication s r).1 g = ((addMedication s r).1, ⟨200, Body.medication med⟩) ∧
      ∃ out, (getMedication (addMedication s r).1 g).2 = ⟨200, Body.medication out⟩ ∧
        out.Name = med.Name ∧ out.Count = med.Count ∧ out.Dosage = med.Dosage) := by
  have hnone : s.medications.get? med.Name = none := (s.medications.get?_eq_none_iff _).mpr hfresh
  have hadd : addMedication s r = (⟨s.medications.insert med.Name med⟩, writeHeader StatusCreated) := by
    simp [addMedication, hbody, hnone]
  have hget : ∀ g : Request, g.query.Get "name" = med.Name →
      getMedication (addMedication s r).1 g
        = ((addMedication s r).1, ⟨200, Body.medication med⟩) := by
    intro g hg
    simp [getMedication, hg, hname, hadd, MedMap.get?_insert_self, encodeMedication, StatusOK]
  refine ⟨by rw [hadd]; rfl, by rw [hadd]; exact MedMap.get?_insert_self _ _ _, ?_, ?_, ?_⟩
  · intro k hk
    rw [hadd]
    exact MedMap.get?_insert_ne _ hk _
  · intro k
    rw [hadd]
    exact MedMap.mem_keys_insert _ _ _ _
  · intro g hg
    refine ⟨hget g hg, med, ?_, rfl, rfl, rfl⟩
    rw [hget g hg]

/-- C1, at the record of the scenario added to the empty registry. -/
theorem add_get_roundtrip_witness :
    (addMedication NewServer (bodyRequest aspirin)).2 = ⟨201, Body.empty⟩ ∧
    (getMedication (addMedication NewServer (bodyRequest aspirin)).1 (nameRequest "Aspirin")).2
      = ⟨200, Body.medication ⟨"Aspirin", 10, "500mg"⟩⟩ := by
  have h := add_get_roundtrip NewServer (bodyRequest aspirin) aspirin rfl (by decide) (by decide)
  exact ⟨h.1, by rw [(h.2.2.2.2 (nameRequest "Aspirin") (by decide)).1]; rfl⟩

/-- C2. A duplicate add is rejected atomically: when the body decodes to a
record whose name is already a key (whatever its count and dosage),
`addMedication` answers 409 Conflict and the registry is the one before, so
every name, that one included, is bound to what it was bound to. -/
theorem add_duplicate_conflict (s : Server) (r : Request) (med : Medication)
    (hbody : r.body = some med) (hdup : med.Name ∈ s.medications.keys) :
    (addMedication s r).2.status = 409 ∧
    (addMedication s r).2 = httpError "Medication already exists" StatusConflict ∧
    (addMedication s r).1 = s ∧
    (addMedication s r).1.medications.get? med.Name = s.medications.get? med.Name ∧
    ∃ first, s.medications.get? med.Name = some first ∧
      (addMedication s r).1.medications.get? med.Name = some first := by
  obtain ⟨first, hfirst⟩ := MedMap.get?_isSome_of_mem_keys hdup
  have hadd : addMedication s r = (s, httpError "Medication already exists" StatusConflict) := by
    simp [addMedication, hbody, hfirst]
  rw [hadd]
  exact ⟨rfl, rfl, rfl, rfl, first, hfirst, hfirst⟩

/-- C2, at a second add of "Aspirin" with another count and dosage. -/
theorem add_duplicate_conflict_witness :
    (addMedication sampleServer (bodyRequest ⟨"Aspirin", 99, "1g"⟩)).2.status = 409 ∧
    (addMedication sampleServer (bodyRequest ⟨"Aspirin", 99, "1g"⟩)).1 = sampleServer ∧
    sampleServer.medications.get? "Aspirin" = some aspirin :=
  have h := add_duplicate_conflict sampleServer (bodyRequest ⟨"Aspirin", 99, "1g"⟩)
    ⟨"Aspirin", 99, "1g"⟩ rfl (by decide)
  ⟨h.1, h.2.2.1, by decide⟩


/-- C3. UpdateCount changes only the count: when the body decodes to a payload
`upd` whose name is a key, `updateMedicationCount` answers 200 with an empty
body; the record stored under `upd.Name` afterwards has the count of the
payload and the name and dosage stored before (the dosage of the payload is
not looked at), the keys are the same, and every other name is bound to what
it was bound to. -/
theorem update_changes_only_count (s : Server) (r : Request) (upd : Medication)
    (hbody : r.body = some upd) (hkey : upd.Name ∈ s.medications.keys) :
    (updateMedicationCount s r).2 = ⟨200, Body.empty⟩ ∧
    (∃ old, s.medications.get? upd.Name = some old ∧
      (updateMedicationCount s r).1.medications.get? upd.Name
        = some ⟨old.Name, upd.Count, old.Dosage⟩) ∧
    (updateMedicationCount s r).1.medications.keys = s.medications.keys ∧
    (∀ k, k ≠ upd.Name →
      (updateMedicationCount s r).1.medications.get? k = s.medications.get? k) := by
  obtain ⟨old, hold⟩ := MedMap.get?_isSome_of_mem_keys hkey
  have hupd : updateMedicationCount s r
      = (⟨s.medications.modify upd.Name (fun m => { m with Count := upd.Count })⟩,
          writeHeader StatusOK) := by
    simp [updateMedicationCount, hbody, hold]
  rw [hupd]
  refine ⟨rfl, ⟨old, hold, ?_⟩, MedMap.keys_modify _ _ _, ?_⟩
  · show (s.medications.modify upd.Name _).get? upd.Name = _
    rw [MedMap.get?_modify_self, hold]
    rfl
  · intro k hk
    exact MedMap.get?_modify_ne _ hk _

/-- C3, at the update of the scenario: count 5 and a dosage that differs from
the stored one. -/
theorem update_changes_only_count_witness :
    (updateMedicationCount sampleServer (bodyRequest ⟨"Aspirin", 5, "ignored"⟩)).2
      = ⟨200, Body.empty⟩ ∧
    (updateMedicationCount sampleServer
        (bodyRequest ⟨"Aspirin", 5, "ignored"⟩)).1.medications.get? "Aspirin"
      = some ⟨"Aspirin", 5, "500mg"⟩ ∧
    (updateMedicationCount sampleServer
        (bodyRequest ⟨"Aspirin", 5, "ignored"⟩)).1.medications.get? "Ibuprofen"
      = some ibuprofen := by
  have h := update_changes_only_count sampleServer (bodyRequest ⟨"Aspirin", 5, "ignored"⟩)
    ⟨"Aspirin", 5, "ignored"⟩ rfl (by decide)
  refine ⟨h.1, by decide, ?_⟩
  rw [h.2.2.2 "Ibuprofen" (by decide)]
  decide

/-- C4. Delete removes the entry for good: when the `name` parameter is a
non-empty key `n`, `deleteMedication` answers 200 with an empty body and
leaves the registry without `n` and otherwise as it was (the keys are the old
ones other than `n`, one entry fewer, every other name bound as before); in
that state `getMedication` on `n` answers 404 and a second
`deleteMedication` on `n` answers 404 and changes nothing. -/
theorem delete_removes_entry (s : Server) (r : Request) (n : String)
    (hq : r.query.Get "name" = n) (hne : n ≠ "") (hkey : n ∈ s.medications.keys) :
    (deleteMedication s r).2 = ⟨200, Body.empty⟩ ∧
    (deleteMedication s r).1.medications.get? n = none ∧
    (∀ k, k ∈ (deleteMedication s r).1.medications.keys ↔ k ∈ s.medications.keys ∧ k ≠ n) ∧
    (∀ k, k ≠ n → (deleteMedication s r).1.medications.get? k = s.medications.get? k) ∧
    (deleteMedication s r).1.medications.len + 1 = s.medications.len ∧
    (∀ g : Request, g.query.Get "name" = n →
      getMedication (deleteMedication s r).1 g
        = ((deleteMedication s r).1, httpError "Medication not found" 404) ∧
      deleteMedication (deleteMedication s r).1 g
        = ((deleteMedication s r).1, httpError "Medication not found" 404)) := by
  obtain ⟨old, hold⟩ := MedMap.get?_isSome_of_mem_keys hkey
  have hdel : deleteMedication s r = (⟨s.medications.delete n⟩, writeHeader StatusOK) := by
    simp [deleteMedication, hq, hne, hold]
  rw [hdel]
  refine ⟨rfl, MedMap.get?_delete_self _ _, fun k => MedMap.mem_keys_delete _ _ _,
    fun k hk => MedMap.get?_delete_ne _ hk, MedMap.len_delete_of_mem hkey, ?_⟩
  intro g hg
  have hgone : (s.medications.delete n).get? n = none := MedMap.get?_delete_self _ _
  constructor
  · simp [getMedication, hg, hne, hgone, StatusNotFound]
  · simp [deleteMedication, hg, hne, hgone, StatusNotFound]

/-- C4, at the deletion of "Aspirin" from a registry of two records. -/
theorem delete_removes_entry_witness :
    (deleteMedication sampleServer (nameRequest "Aspirin")).2 = ⟨200, Body.empty⟩ ∧
    (deleteMedication sampleServer (nameRequest "Aspirin")).1.medications.entries
      = [("Ibuprofen", ibuprofen)] ∧
    (getMedication (deleteMedication sampleServer (nameRequest "Aspirin")).1
      (nameRequest "Aspirin")).2.status = 404 ∧
    (deleteMedication (deleteMedication sampleServer (nameRequest "Aspirin")).1
      (nameRequest "Aspirin")).2.status = 404 := by
  have h := delete_removes_entry sampleServer (nameRequest "Aspirin") "Aspirin" (by decide)
    (by decide) (by decide)
  refine ⟨h.1, by decide, ?_, ?_⟩
  · rw [(h.2.2.2.2.2 (nameRequest "Aspirin") (by decide)).1]
    rfl
  · rw [(h.2.2.2.2.2 (nameRequest "Aspirin") (by decide)).2]
    rfl

/-- C5. Unknown names fail NotFound without effect: for a non-empty name `n`
that is not a key, `getMedication` and `deleteMedication` on a request whose
`name` parameter is `n`, and `updateMedicationCount` on a request whose body
decodes to any payload named `n`, each answer 404 Not Found and return the
registry they were given (update creates no record). -/
theorem unknown_name_not_found (s : Server) (n : String) (q u : Request) (upd : Medication)
    (hne : n ≠ "") (hfresh : n ∉ s.medications.keys)
    (hq : q.query.Get "name" = n) (hu : u.body = some upd) (hupd : upd.Name = n) :
    getMedication s q = (s, httpError "Medication not found" 404) ∧
    deleteMedication s q = (s, httpError "Medication not found" 404) ∧
    updateMedicationCount s u = (s, httpError "Medication not found" 404) ∧
    (updateMedicationCount s u).1.medications.get? n = none := by
  have hnone : s.medications.get? n = none := (s.medications.get?_eq_none_iff n).mpr hfresh
  have h3 : updateMedicationCount s u = (s, httpError "Medication not found" 404) := by
    simp [updateMedicationCount, hu, hupd, hnone, StatusNotFound]
  refine ⟨?_, ?_, h3, ?_⟩
  · simp [getMedication, hq, hne, hnone, StatusNotFound]
  · simp [deleteMedication, hq, hne, hnone, StatusNotFound]
  · rw [h3]
    exact hnone

/-- C5, at the name "Zinc", which the sample registry does not hold. -/
theorem unknown_name_not_found_witness :
    (getMedication sampleServer (nameRequest "Zinc")).2.status = 404 ∧
    (deleteMedication sampleServer (nameRequest "Zinc")).2.status = 404 ∧
    (updateMedicationCount sampleServer (bodyRequest zinc)).2.status = 404 ∧
    (updateMedicationCount sampleServer (bodyRequest zinc)).1 = sampleServer := by
  have h := unknown_name_not_found sampleServer "Zinc" (nameRequest "Zinc") (bodyRequest zinc)
    zinc (by decide) (by decide) (by decide) rfl rfl
  refine ⟨?_, ?_, ?_, ?_⟩
  · rw [h.1]; rfl
  · rw [h.2.1]; rfl
  · rw [h.2.2.1]; rfl
  · rw [h.2.2.1]


/-! ### Listing -/

theorem eraseEntries_of_not_mem {k : String} {l : List (String × Medication)}
    (h : k ∉ l.map Prod.fst) : eraseEntries k l = l := by
  unfold eraseEntries
  rw [List.filter_eq_self]
  intro a ha
  have : a.1 ≠ k := fun hk => h (List.mem_map.mpr ⟨a, ha, hk⟩)
  simpa using this

theorem foldl_append_snd (l : List (String × Medication)) (init : List Medication) :
    l.foldl (fun acc e => acc ++ [e.2]) init = init ++ l.map Prod.snd := by
  induction l generalizing init with
  | nil => simp
  | cons e t ih => simp [List.foldl_cons, ih]

theorem MedMap.range_keys (m : MedMap) : m.range m.keys = m.entries := by
  unfold MedMap.range MedMap.keys
  rw [List.filterMap_map]
  have hsome : ∀ e ∈ m.entries,
      ((fun k => (m.get? k).map (fun v => (k, v))) ∘ Prod.fst) e = some e := by
    intro e he
    have hget : m.get? e.1 = some e.2 := (m.get?_eq_some_iff e.1 e.2).mpr he
    simp [hget]
  rw [List.filterMap_congr hsome, List.filterMap_some]

theorem MedMap.range_perm (m : MedMap) {order : List String} (h : order.Perm m.keys) :
    (m.range order).Perm m.entries := by
  have hp := List.Perm.filterMap (fun k => (m.get? k).map (fun v => (k, v))) h
  have hk := m.range_keys
  unfold MedMap.range at hk ⊢
  rw [hk] at hp
  exact hp

theorem addMedication_fresh {s : Server} {r : Request} {med : Medication}
    (hbody : r.body = some med) (hfresh : med.Name ∉ s.medications.keys) :
    (addMedication s r).2 = ⟨201, Body.empty⟩ ∧
    (addMedication s r).1.medications.entries = (med.Name, med) :: s.medications.entries := by
  have hnone : s.medications.get? med.Name = none := (s.medications.get?_eq_none_iff _).mpr hfresh
  have hadd : addMedication s r = (⟨s.medications.insert med.Name med⟩, writeHeader StatusCreated) := by
    simp [addMedication, hbody, hnone]
  rw [hadd]
  refine ⟨rfl, ?_⟩
  show (med.Name, med) :: eraseEntries med.Name s.medications.entries = _
  rw [eraseEntries_of_not_mem hfresh]

theorem getAllMedications_perm (s : Server) (order : List String) (r : Request)
    (horder : order.Perm s.medications.keys) :
    ∃ meds, getAllMedications s order r = (s, ⟨200, Body.medications meds⟩) ∧
      meds.Perm s.medications.values := by
  refine ⟨(s.medications.range order).map Prod.snd, ?_, (s.medications.range_perm horder).map _⟩
  simp [getAllMedications, foldl_append_snd, encodeMedications, StatusOK]

/-- C6. List returns exactly the stored records: whatever order the runtime
picks for the `range` loop (any arrangement `order` of the keys),
`getAllMedications` answers 200 with a sequence that is a permutation of the
records of the registry, of as many elements as there are keys, and returns
the registry unchanged; on a registry without keys the sequence is empty; and
after three adds of records with pairwise distinct names to the registry of
`NewServer`, each answered 201, the sequence is a permutation of those three
records. -/
theorem getAll_lists_stored_records (s : Server) (order : List String) (r : Request)
    (horder : order.Perm s.medications.keys) :
    (∃ meds, getAllMedications s order r = (s, ⟨200, Body.medications meds⟩) ∧
      meds.Perm s.medications.values ∧
      meds.length = s.medications.keys.length ∧
      (s.medications.keys = [] → meds = [])) ∧
    (∀ (a b c : Medication) (ra rb rc : Request) (order3 : List String),
      ra.body = some a → rb.body = some b → rc.body = some c →
      a.Name ≠ b.Name → a.Name ≠ c.Name → b.Name ≠ c.Name →
      order3.Perm (addMedication (addMedication (addMedication NewServer ra).1 rb).1
        rc).1.medications.keys →
      (addMedication NewServer ra).2.status = 201 ∧
      (addMedication (addMedication NewServer ra).1 rb).2.status = 201 ∧
      (addMedication (addMedication (addMedication NewServer ra).1 rb).1 rc).2.status = 201 ∧
      ∃ meds, (getAllMedications (addMedication (addMedication (addMedication NewServer ra).1
          rb).1 rc).1 order3 r).2 = ⟨200, Body.medications meds⟩ ∧
        meds.Perm [a, b, c]) := by
  constructor
  · obtain ⟨meds, hres, hperm⟩ := getAllMedications_perm s order r horder
    refine ⟨meds, hres, hperm, ?_, ?_⟩
    · rw [hperm.length_eq]
      simp [MedMap.values, MedMap.keys]
    · intro hempty
      have hvals : s.medications.values = [] := by
        have h0 : s.medications.entries = [] := List.map_eq_nil_iff.mp hempty
        simp [MedMap.values, h0]
      rw [hvals] at hperm
      exact List.Perm.eq_nil hperm
  · intro a b c ra rb rc order3 ha hb hc hab hac hbc horder3
    have h1 := addMedication_fresh (s := NewServer) ha (by simp [NewServer, MedMap.keys, MedMap.empty])
    have e1 : (addMedication NewServer ra).1.medications.entries = [(a.Name, a)] := h1.2
    have h2 := addMedication_fresh (s := (addMedication NewServer ra).1) hb
      (by rw [MedMap.keys, e1]; simpa using Ne.symm hab)
    have e2 : (addMedication (addMedication NewServer ra).1 rb).1.medications.entries
        = [(b.Name, b), (a.Name, a)] := by rw [h2.2, e1]
    have h3 := addMedication_fresh (s := (addMedication (addMedication NewServer ra).1 rb).1) hc
      (by rw [MedMap.keys, e2]; simpa using ⟨Ne.symm hbc, Ne.symm hac⟩)
    have e3 : (addMedication (addMedication (addMedication NewServer ra).1 rb).1
        rc).1.medications.entries = [(c.Name, c), (b.Name, b), (a.Name, a)] := by rw [h3.2, e2]
    refine ⟨by rw [h1.1], by rw [h2.1], by rw [h3.1], ?_⟩
    obtain ⟨meds, hres, hperm⟩ := getAllMedications_perm _ order3 r horder3
    refine ⟨meds, by rw [hres], ?_⟩
    rw [MedMap.values, e3] at hperm
    exact hperm.trans (List.reverse_perm [a, b, c])

/-- C6, at the sample registry visited in the order Ibuprofen, Aspirin, and at
three adds to the empty registry listed in the order Ibuprofen, Zinc,
Aspirin. -/
theorem getAll_lists_stored_records_witness :
    (getAllMedications sampleServer ["Ibuprofen", "Aspirin"] (nameRequest "")).2
      = ⟨200, Body.medications [ibuprofen, aspirin]⟩ ∧
    (∃ meds, getAllMedications sampleServer ["Ibuprofen", "Aspirin"] (nameRequest "")
        = (sampleServer, ⟨200, Body.medications meds⟩) ∧
      meds.Perm [aspirin, ibuprofen] ∧ meds.length = 2) ∧
    (∃ meds, (getAllMedications (addMedication (addMedication (addMedication NewServer
        (bodyRequest aspirin)).1 (bodyRequest ibuprofen)).1 (bodyRequest zinc)).1
        ["Ibuprofen", "Zinc", "Aspirin"] (nameRequest "")).2 = ⟨200, Body.medications meds⟩ ∧
      meds.Perm [aspirin, ibuprofen, zinc]) := by
  have h := getAll_lists_stored_records sampleServer ["Ibuprofen", "Aspirin"] (nameRequest "")
    (by decide)
  refine ⟨by decide, ?_, ?_⟩
  · obtain ⟨meds, h1, h2, h3, _⟩ := h.1
    exact ⟨meds, h1, h2, h3⟩
  · exact (h.2 aspirin ibuprofen zinc (bodyRequest aspirin) (bodyRequest ibuprofen)
      (bodyRequest zinc) ["Ibuprofen", "Zinc", "Aspirin"] rfl rfl rfl (by decide) (by decide)
      (by decide) (by decide)).2.2.2


/-! ### The key/name invariant -/

theorem keysAreNames_addMedication (s : Server) (r : Request) (h : KeysAreNames s) :
    KeysAreNames (addMedication s r).1 := by
  cases hb : r.body with
  | none => simpa [addMedication, hb] using h
  | some med =>
    cases hg : s.medications.get? med.Name with
    | some _ => simpa [addMedication, hb, hg] using h
    | none =>
      have hadd : addMedication s r
          = (⟨s.medications.insert med.Name med⟩, writeHeader StatusCreated) := by
        simp [addMedication, hb, hg]
      rw [hadd]
      intro e he
      rcases List.mem_cons.mp he with heq | hmem
      · rw [heq]
      · exact h e (List.mem_of_mem_filter hmem)

theorem keysAreNames_updateMedicationCount (s : Server) (r : Request) (h : KeysAreNames s) :
    KeysAreNames (updateMedicationCount s r).1 := by
  cases hb : r.body with
  | none => simpa [updateMedicationCount, hb] using h
  | some med =>
    cases hg : s.medications.get? med.Name with
    | none => simpa [updateMedicationCount, hb, hg] using h
    | some _ =>
      have hupd : updateMedicationCount s r
          = (⟨s.medications.modify med.Name (fun m => { m with Count := med.Count })⟩,
              writeHeader StatusOK) := by
        simp [updateMedicationCount, hb, hg]
      rw [hupd]
      intro e he
      obtain ⟨e0, he0, rfl⟩ := List.mem_map.mp he
      by_cases hk : e0.1 = med.Name
      · simpa [hk] using h e0 he0
      · simpa [hk] using h e0 he0

theorem keysAreNames_deleteMedication (s : Server) (r : Request) (h : KeysAreNames s) :
    KeysAreNames (deleteMedication s r).1 := by
  unfold deleteMedication
  by_cases hn : r.query.Get "name" = ""
  · simpa [hn] using h
  · cases hg : s.medications.get? (r.query.Get "name") with
    | none => simpa [hn, hg] using h
    | some _ =>
      simp only [hn, if_false, hg]
      intro e he
      exact h e (List.mem_of_mem_filter he)

theorem getMedication_state (s : Server) (r : Request) : (getMedication s r).1 = s := by
  unfold getMedication
  by_cases hn : r.query.Get "name" = ""
  · simp [hn]
  · cases hg : s.medications.get? (r.query.Get "name") <;> simp [hn, hg]

theorem keysAreNames_routes (s : Server) (order : List String) (route : Route) (r : Request)
    (h : KeysAreNames s) : KeysAreNames (routes s order route r).1 := by
  cases route with
  | add => exact keysAreNames_addMedication s r h
  | get => exact (getMedication_state s r).symm ▸ h
  | getAll => exact h
  | update => exact keysAreNames_updateMedicationCount s r h
  | delete => exact keysAreNames_deleteMedication s r h

/-- C7. Key/name invariant: in every state reachable from that of `NewServer`
through any finite sequence of requests to the five handlers (any payloads,
answered with success or failure), every entry of the map has a key equal to
the name of its record; so whenever a lookup of `k` finds a record, its name
is `k`. -/
theorem reachable_keys_are_names (s : Server) (hs : Reachable s) :
    (∀ e ∈ s.medications.entries, e.2.Name = e.1) ∧
    (∀ k med, s.medications.get? k = some med → med.Name = k) := by
  have hinv : KeysAreNames s := by
    induction hs with
    | init => intro e he; simp [NewServer, MedMap.empty] at he
    | step order route r _ ih => exact keysAreNames_routes _ order route r ih
  exact ⟨hinv, fun k med hget => hinv (k, med) (mem_of_lookupEntries hget)⟩

/-- C7, at the state reached by adding "Aspirin", updating it with a payload
of another dosage and adding "Ibuprofen". -/
theorem reachable_keys_are_names_witness :
    (routes (routes (routes NewServer [] Route.add (bodyRequest aspirin)).1 [] Route.update
        (bodyRequest ⟨"Aspirin", 5, "ignored"⟩)).1 [] Route.add
        (bodyRequest ibuprofen)).1.medications.entries
      = [("Ibuprofen", ibuprofen), ("Aspirin", ⟨"Aspirin", 5, "500mg"⟩)] ∧
    ∀ k med, (routes (routes (routes NewServer [] Route.add (bodyRequest aspirin)).1 []
        Route.update (bodyRequest ⟨"Aspirin", 5, "ignored"⟩)).1 [] Route.add
        (bodyRequest ibuprofen)).1.medications.get? k = some med → med.Name = k :=
  ⟨by decide,
    (reachable_keys_are_names _
      (Reachable.step [] Route.add (bodyRequest ibuprofen)
        (Reachable.step [] Route.update (bodyRequest ⟨"Aspirin", 5, "ignored"⟩)
          (Reachable.step [] Route.add (bodyRequest aspirin) Reachable.init)))).2⟩

/-! ### Validation of the input -/

theorem Values.Get_of_absent {v : Values} {key : String} (h : ∀ p ∈ v, p.1 ≠ key) :
    v.Get key = "" := by
  have hfind : v.find? (fun p => decide (p.1 = key)) = none := by
    rw [List.find?_eq_none]
    intro p hp
    simpa using h p hp
  simp [Values.Get, hfind]

/-- C9. Unparseable input is a 400 without effect: in every registry state,
`getMedication` and `deleteMedication` on a request whose query has no `name`
parameter, or whose `name` parameter is empty, and `addMedication` and
`updateMedicationCount` on a request whose body does not decode, answer
400 Bad Request (so neither 404, 409 nor a success status) and return the
registry they were given. -/
theorem bad_input_is_400 (s : Server) (q b : Request)
    (hq : (∀ p ∈ q.query, p.1 ≠ "name") ∨ q.query.Get "name" = "")
    (hb : b.body = none) :
    getMedication s q = (s, httpError "Missing medication name" 400) ∧
    deleteMedication s q = (s, httpError "Missing medication name" 400) ∧
    addMedication s b = (s, httpError "Invalid request payload" 400) ∧
    updateMedicationCount s b = (s, httpError "Invalid request payload" 400) ∧
    (∀ resp ∈ [(getMedication s q).2, (deleteMedication s q).2, (addMedication s b).2,
        (updateMedicationCount s b).2],
      resp.status = 400 ∧ resp.status ≠ 404 ∧ resp.status ≠ 409 ∧
        ¬ (200 ≤ resp.status ∧ resp.status < 300)) := by
  have hname : q.query.Get "name" = "" := hq.elim Values.Get_of_absent id
  have h1 : getMedication s q = (s, httpError "Missing medication name" 400) := by
    simp [getMedication, hname, StatusBadRequest]
  have h2 : deleteMedication s q = (s, httpError "Missing medication name" 400) := by
    simp [deleteMedication, hname, StatusBadRequest]
  have h3 : addMedication s b = (s, httpError "Invalid request payload" 400) := by
    simp [addMedication, hb, StatusBadRequest]
  have h4 : updateMedicationCount s b = (s, httpError "Invalid request payload" 400) := by
    simp [updateMedicationCount, hb, StatusBadRequest]
  refine ⟨h1, h2, h3, h4, ?_⟩
  rw [h1, h2, h3, h4]
  intro resp hresp
  simp only [List.mem_cons, List.mem_singleton, List.not_mem_nil, or_false] at hresp
  rcases hresp with h | h | h | h <;> subst h <;> simp [httpError]

/-- C9, at a registry that holds a record under the empty name, for a query
`?name=` and for a query without `name`. -/
theorem bad_input_is_400_witness :
    getMedication namelessServer (nameRequest "") =
      (namelessServer, httpError "Missing medication name" 400) ∧
    deleteMedication namelessServer ⟨[("id", "7")], none⟩ =
      (namelessServer, httpError "Missing medication name" 400) ∧
    addMedication namelessServer ⟨[], none⟩ =
      (namelessServer, httpError "Invalid request payload" 400) :=
  ⟨(bad_input_is_400 namelessServer (nameRequest "") ⟨[], none⟩ (Or.inr (by decide)) rfl).1,
    (bad_input_is_400 namelessServer ⟨[("id", "7")], none⟩ ⟨[], none⟩
      (Or.inl (by decide)) rfl).2.1,
    (bad_input_is_400 namelessServer (nameRequest "") ⟨[], none⟩ (Or.inr (by decide)) rfl).2.2.1⟩

/-- C8. The add handler does not require a name: on the empty registry a
request whose body decodes to a record without name (the body `{"count":1}`)
is answered 201 Created, not a client error, and the record is stored under
the key `""`; that state is reachable, and in it neither `getMedication` nor
`deleteMedication` can address the record: both answer 400 to `?name=`. -/
theorem add_accepts_empty_name :
    (addMedication NewServer ⟨[], some ⟨"", 1, ""⟩⟩).2 = ⟨201, Body.empty⟩ ∧
    (addMedication NewServer ⟨[], some ⟨"", 1, ""⟩⟩).1.medications.entries
      = [("", ⟨"", 1, ""⟩)] ∧
    Reachable (addMedication NewServer ⟨[], some ⟨"", 1, ""⟩⟩).1 ∧
    (getMedication (addMedication NewServer ⟨[], some ⟨"", 1, ""⟩⟩).1 (nameRequest "")).2.status
      = 400 ∧
    (deleteMedication (addMedication NewServer ⟨[], some ⟨"", 1, ""⟩⟩).1
      (nameRequest "")).2.status = 400 :=
  ⟨rfl, rfl, Reachable.step [] Route.add ⟨[], some ⟨"", 1, ""⟩⟩ Reachable.init, by decide,
    by decide⟩

/-! ### Batches of adds -/

theorem addMedication_cases (s : Server) (r : Request) (med : Medication)
    (hbody : r.body = some med) :
    (med.Name ∈ s.medications.keys ∧
      addMedication s r = (s, httpError "Medication already exists" StatusConflict)) ∨
    (med.Name ∉ s.medications.keys ∧
      addMedication s r = (⟨s.medications.insert med.Name med⟩, writeHeader StatusCreated)) := by
  cases hg : s.medications.get? med.Name with
  | none =>
    exact Or.inr ⟨(s.medications.get?_eq_none_iff _).mp hg, by simp [addMedication, hbody, hg]⟩
  | some v =>
    refine Or.inl ⟨?_, by simp [addMedication, hbody, hg]⟩
    by_contra hc
    rw [(s.medications.get?_eq_none_iff _).mpr hc] at hg
    exact Option.noConfusion hg

theorem addMedication_undecoded (s : Server) (r : Request) (hbody : r.body = none) :
    addMedication s r = (s, httpError "Invalid request payload" StatusBadRequest) := by
  simp [addMedication, hbody]

theorem named_of_body {n : String} {r : Request} {med : Medication} (hbody : r.body = some med) :
    named n r = decide (med.Name = n) := by
  simp [named, hbody]

theorem mem_keys_addMedication {s : Server} {n : String} (r : Request)
    (h : n ∈ s.medications.keys) : n ∈ (addMedication s r).1.medications.keys := by
  cases hb : r.body with
  | none => rw [addMedication_undecoded s r hb]; exact h
  | some med =>
    rcases addMedication_cases s r med hb with ⟨_, he⟩ | ⟨_, he⟩
    · rw [he]; exact h
    · rw [he]; exact (MedMap.mem_keys_insert _ _ _ _).mpr (Or.inr h)

theorem not_mem_keys_addMedication {s : Server} {n : String} {r : Request}
    (h : n ∉ s.medications.keys) (hr : named n r = false) :
    n ∉ (addMedication s r).1.medications.keys := by
  cases hb : r.body with
  | none => rw [addMedication_undecoded s r hb]; exact h
  | some med =>
    rw [named_of_body hb, decide_eq_false_iff_not] at hr
    rcases addMedication_cases s r med hb with ⟨_, he⟩ | ⟨_, he⟩
    · rw [he]; exact h
    · rw [he]
      intro hin
      rcases (MedMap.mem_keys_insert _ _ _ _).mp hin with h1 | h1
      · exact hr h1.symm
      · exact h h1

theorem get?_addMedication_of_some {s : Server} {n : String} {v : Medication} (r : Request)
    (h : s.medications.get? n = some v) : (addMedication s r).1.medications.get? n = some v := by
  cases hb : r.body with
  | none => rw [addMedication_undecoded s r hb]; exact h
  | some med =>
    rcases addMedication_cases s r med hb with ⟨_, he⟩ | ⟨hfresh, he⟩
    · rw [he]; exact h
    · rw [he]
      have hne : n ≠ med.Name := by
        intro hn
        rw [hn, (s.medications.get?_eq_none_iff _).mpr hfresh] at h
        exact Option.noConfusion h
      show (s.medications.insert med.Name med).get? n = some v
      rw [MedMap.get?_insert_ne _ hne, h]

theorem serveAdds_cons_answers (s : Server) (r : Request) (rs : List Request) :
    (serveAdds s (r :: rs)).2
      = (r, (addMedication s r).2) :: (serveAdds (addMedication s r).1 rs).2 := rfl

theorem serveAdds_cons_state (s : Server) (r : Request) (rs : List Request) :
    (serveAdds s (r :: rs)).1 = (serveAdds (addMedication s r).1 rs).1 := rfl

theorem serveAdds_requests (s : Server) (sched : List Request) :
    (serveAdds s sched).2.map Prod.fst = sched := by
  induction sched generalizing s with
  | nil => rfl
  | cons r rs ih => simp [serveAdds, ih]

theorem serveAdds_statuses (s : Server) (sched : List Request)
    (hdec : ∀ r ∈ sched, ∃ med, r.body = some med) :
    ∀ p ∈ (serveAdds s sched).2,
      p.2 = ⟨201, Body.empty⟩ ∨ p.2 = httpError "Medication already exists" 409 := by
  induction sched generalizing s with
  | nil => intro p hp; simp [serveAdds] at hp
  | cons r rs ih =>
    intro p hp
    rw [serveAdds_cons_answers, List.mem_cons] at hp
    rcases hp with hp | hp
    · obtain ⟨med, hb⟩ := hdec r (List.mem_cons_self _ _)
      rw [hp]
      rcases addMedication_cases s r med hb with ⟨_, he⟩ | ⟨_, he⟩
      · right; rw [he]; rfl
      · left; rw [he]; rfl
    · exact ih _ (fun r0 h0 => hdec r0 (List.mem_cons_of_mem _ h0)) p hp

theorem serveAdds_get?_of_some {n : String} {v : Medication} (sched : List Request) (s : Server)
    (h : s.medications.get? n = some v) : (serveAdds s sched).1.medications.get? n = some v := by
  induction sched generalizing s with
  | nil => exact h
  | cons r rs ih =>
    rw [serveAdds_cons_state]
    exact ih _ (get?_addMedication_of_some r h)

theorem answered_head (n : String) (code : Nat) (s : Server) (r : Request) :
    answered n code (r, (addMedication s r).2)
      = (named n r && decide ((addMedication s r).2.status = code)) := rfl

theorem serveAdds_created_of_key (n : String) (sched : List Request) (s : Server)
    (h : n ∈ s.medications.keys) :
    (serveAdds s sched).2.countP (answered n 201) = 0 := by
  induction sched generalizing s with
  | nil => rfl
  | cons r rs ih =>
    rw [serveAdds_cons_answers]
    have hhead : answered n 201 (r, (addMedication s r).2) = false := by
      rw [answered_head]
      cases hb : r.body with
      | none => simp [named, hb]
      | some med =>
        by_cases hn : med.Name = n
        · rcases addMedication_cases s r med hb with ⟨_, he⟩ | ⟨hfresh, _⟩
          · rw [he]; simp [httpError, StatusConflict]
          · exact absurd (hn ▸ h) hfresh
        · simp [named_of_body hb, hn]
    rw [List.countP_cons_of_neg _ _ (by simp [hhead])]
    exact ih _ (mem_keys_addMedication r h)

theorem serveAdds_created_once (n : String) (sched : List Request) (s : Server)
    (hfresh : n ∉ s.medications.keys) (hreq : ∃ r ∈ sched, named n r = true) :
    (serveAdds s sched).2.countP (answered n 201) = 1 := by
  induction sched generalizing s with
  | nil => obtain ⟨r, hr, _⟩ := hreq; simp at hr
  | cons r rs ih =>
    rw [serveAdds_cons_answers]
    cases hnamed : named n r with
    | true =>
      have hb : ∃ med, r.body = some med ∧ med.Name = n := by
        cases hb : r.body with
        | none => simp [named, hb] at hnamed
        | some med => exact ⟨med, rfl, by simpa [named, hb] using hnamed⟩
      obtain ⟨med, hb, hn⟩ := hb
      rcases addMedication_cases s r med hb with ⟨hkey, _⟩ | ⟨_, he⟩
      · exact absurd (hn ▸ hkey) hfresh
      · have hhead : answered n 201 (r, (addMedication s r).2) = true := by
          rw [answered_head, hnamed, he]; rfl
        rw [List.countP_cons_of_pos _ _ hhead]
        have hkey : n ∈ (addMedication s r).1.medications.keys := by
          rw [he]
          exact (MedMap.mem_keys_insert _ _ _ _).mpr (Or.inl hn.symm)
        rw [serveAdds_created_of_key n rs _ hkey]
    | false =>
      have hhead : answered n 201 (r, (addMedication s r).2) = false := by
        rw [answered_head, hnamed]; rfl
      rw [List.countP_cons_of_neg _ _ (by simp [hhead])]
      refine ih _ (not_mem_keys_addMedication hfresh hnamed) ?_
      obtain ⟨r0, hr0, hn0⟩ := hreq
      rcases List.mem_cons.mp hr0 with h | h
      · rw [h, hnamed] at hn0; exact Bool.noConfusion hn0
      · exact ⟨r0, h, hn0⟩

theorem serveAdds_count_split (n : String) (sched : List Request) (s : Server) :
    (serveAdds s sched).2.countP (answered n 201) + (serveAdds s sched).2.countP (answered n 409)
      = sched.countP (named n) := by
  induction sched generalizing s with
  | nil => rfl
  | cons r rs ih =>
    rw [serveAdds_cons_answers, List.countP_cons, List.countP_cons, List.countP_cons, ← ih (addMedication s r).1,
      answered_head, answered_head]
    cases hnamed : named n r with
    | false => simp
    | true =>
      have hb : ∃ med, r.body = some med := by
        cases hb : r.body with
        | none => simp [named, hb] at hnamed
        | some med => exact ⟨med, rfl⟩
      obtain ⟨med, hb⟩ := hb
      rcases addMedication_cases s r med hb with ⟨_, he⟩ | ⟨_, he⟩
      · rw [he]; simp [httpError, StatusConflict]; omega
      · rw [he]; simp [writeHeader, StatusCreated]; omega

theorem named_iff_decodedName (n : String) (r : Request) :
    named n r = true ↔ decodedName r = some n := by
  cases hb : r.body with
  | none => simp [named, decodedName, hb]
  | some med => simp [named, decodedName, hb]

theorem countP_named_of_nodup {reqs : List Request} (hnd : (reqs.map decodedName).Nodup)
    {r : Request} {med : Medication} (hr : r ∈ reqs) (hbody : r.body = some med) :
    reqs.countP (named med.Name) = 1 := by
  have hname : decodedName r = some med.Name := by simp [decodedName, hbody]
  induction reqs with
  | nil => simp at hr
  | cons h t ih =>
    rw [List.map_cons, List.nodup_cons] at hnd
    rcases List.mem_cons.mp hr with h1 | h1
    · have hh : named med.Name h = true := by
        rw [← h1]; exact (named_iff_decodedName _ _).mpr hname
      have hzero : t.countP (named med.Name) = 0 := by
        rw [List.countP_eq_zero]
        intro x hx hnx
        apply hnd.1
        rw [← h1, hname, ← (named_iff_decodedName _ _).mp hnx]
        exact List.mem_map.mpr ⟨x, hx, rfl⟩
      rw [List.countP_cons_of_pos _ _ hh, hzero]
    · have hh : ¬ named med.Name h = true := by
        intro hnh
        apply hnd.1
        rw [(named_iff_decodedName _ _).mp hnh, ← hname]
        exact List.mem_map.mpr ⟨r, h1, rfl⟩
      rw [List.countP_cons_of_neg _ _ hh]
      exact ih hnd.2 h1

theorem serveAdds_get?_of_unique (sched : List Request) (s : Server) (r : Request)
    (med : Medication) (hr : r ∈ sched) (hbody : r.body = some med)
    (hfresh : med.Name ∉ s.medications.keys) (huniq : sched.countP (named med.Name) = 1) :
    (serveAdds s sched).1.medications.get? med.Name = some med := by
  have hnamed : named med.Name r = true := by simp [named, hbody]
  induction sched generalizing s with
  | nil => simp at hr
  | cons h t ih =>
    rw [serveAdds_cons_state]
    cases hh : named med.Name h with
    | true =>
      rw [List.countP_cons_of_pos _ _ hh] at huniq
      have hzero : t.countP (named med.Name) = 0 := by omega
      have hrh : r = h := by
        rcases List.mem_cons.mp hr with h1 | h1
        · exact h1
        · exact absurd hnamed (List.countP_eq_zero.mp hzero r h1)
      rw [← hrh]
      rcases addMedication_cases s r med hbody with ⟨hkey, _⟩ | ⟨_, he⟩
      · exact absurd hkey hfresh
      · apply serveAdds_get?_of_some
        rw [he]
        exact MedMap.get?_insert_self _ _ _
    | false =>
      rw [List.countP_cons_of_neg _ _ (by simp [hh])] at huniq
      have hrt : r ∈ t := by
        rcases List.mem_cons.mp hr with h1 | h1
        · rw [h1, hh] at hnamed; exact Bool.noConfusion hnamed
        · exact h1
      exact ih _ hrt (not_mem_keys_addMedication hfresh hh) huniq

theorem mem_values_of_get? {m : MedMap} {k : String} {v : Medication} (h : m.get? k = some v) :
    v ∈ m.values :=
  List.mem_map.mpr ⟨(k, v), mem_of_lookupEntries h, rfl⟩

/-- C10. Concurrent adds are serialised by the registry lock: a batch `reqs`
of add requests whose bodies decode to records with names that the registry
does not hold is served in some order `sched` of the batch (the order in
which the handlers get the lock).  Whatever that order: every request gets
its answer and each answer is 201 Created or 409 Conflict; for every name of
the batch exactly one request with that name is answered 201 and all the
others with that name are answered 409; a request whose name no other request
of the batch has is answered 201 and its record is in the list that a
following `getAllMedications` returns; so when the names of the batch are
pairwise distinct every answer is 201 and every record of the batch is
listed. -/
theorem concurrent_adds_serialised (s : Server) (reqs sched : List Request)
    (order : List String) (g : Request)
    (hdec : ∀ r ∈ reqs, ∃ med, r.body = some med ∧ med.Name ∉ s.medications.keys)
    (hsched : sched.Perm reqs)
    (horder : order.Perm (serveAdds s sched).1.medications.keys) :
    (serveAdds s sched).2.map Prod.fst = sched ∧
    (∀ p ∈ (serveAdds s sched).2,
      p.2 = ⟨201, Body.empty⟩ ∨ p.2 = httpError "Medication already exists" 409) ∧
    (∀ r ∈ reqs, ∀ med, r.body = some med →
      (serveAdds s sched).2.countP (answered med.Name 201) = 1 ∧
      (serveAdds s sched).2.countP (answered med.Name 409) + 1
        = reqs.countP (named med.Name)) ∧
    (∃ meds, getAllMedications (serveAdds s sched).1 order g
        = ((serveAdds s sched).1, ⟨200, Body.medications meds⟩) ∧
      (∀ r ∈ reqs, ∀ med, r.body = some med → reqs.countP (named med.Name) = 1 →
        med ∈ meds ∧ ∀ p ∈ (serveAdds s sched).2, p.1 = r → p.2 = ⟨201, Body.empty⟩) ∧
      ((reqs.map decodedName).Nodup →
        (∀ p ∈ (serveAdds s sched).2, p.2 = ⟨201, Body.empty⟩) ∧
        ∀ r ∈ reqs, ∀ med, r.body = some med → med ∈ meds)) := by
  have hdec1 : ∀ r ∈ sched, ∃ med, r.body = some med := fun r hr =>
    (hdec r (hsched.subset hr)).imp fun _ h => h.1
  have hstat := serveAdds_statuses s sched hdec1
  have hcounts : ∀ r ∈ reqs, ∀ med, r.body = some med →
      (serveAdds s sched).2.countP (answered med.Name 201) = 1 ∧
      (serveAdds s sched).2.countP (answered med.Name 409) + 1
        = reqs.countP (named med.Name) := by
    intro r hr med hbody
    obtain ⟨med0, hb0, hfresh⟩ := hdec r hr
    rw [hbody, Option.some.injEq] at hb0
    subst hb0
    have hone := serveAdds_created_once med.Name sched s hfresh
      ⟨r, hsched.symm.subset hr, by simp [named, hbody]⟩
    have hsplit := serveAdds_count_split med.Name sched s
    rw [hsched.countP_eq] at hsplit
    exact ⟨hone, by omega⟩
  have hunique : ∀ r ∈ reqs, ∀ med, r.body = some med → reqs.countP (named med.Name) = 1 →
      (serveAdds s sched).1.medications.get? med.Name = some med ∧
      ∀ p ∈ (serveAdds s sched).2, p.1 = r → p.2 = ⟨201, Body.empty⟩ := by
    intro r hr med hbody huniq
    obtain ⟨med0, hb0, hfresh⟩ := hdec r hr
    rw [hbody, Option.some.injEq] at hb0
    subst hb0
    refine ⟨serveAdds_get?_of_unique sched s r med (hsched.symm.subset hr) hbody hfresh
      (by rw [hsched.countP_eq]; exact huniq), ?_⟩
    intro p hp hpr
    rcases hstat p hp with h201 | h409
    · exact h201
    · have hzero : (serveAdds s sched).2.countP (answered med.Name 409) = 0 := by
        have := (hcounts r hr med hbody).2
        omega
      have hnot := List.countP_eq_zero.mp hzero p hp
      exact absurd (by simp [answered, hpr, named, hbody, h409, httpError]) hnot
  obtain ⟨meds, hres, hperm⟩ := getAllMedications_perm (serveAdds s sched).1 order g horder
  refine ⟨serveAdds_requests s sched, hstat, hcounts, meds, hres, ?_, ?_⟩
  · intro r hr med hbody huniq
    exact ⟨hperm.symm.subset (mem_values_of_get? (hunique r hr med hbody huniq).1),
      (hunique r hr med hbody huniq).2⟩
  · intro hnd
    constructor
    · intro p hp
      have hp1 : p.1 ∈ reqs := by
        apply hsched.subset
        rw [← serveAdds_requests s sched]
        exact List.mem_map.mpr ⟨p, hp, rfl⟩
      obtain ⟨med, hbody, _⟩ := hdec p.1 hp1
      exact (hunique p.1 hp1 med hbody (countP_named_of_nodup hnd hp1 hbody)).2 p hp rfl
    · intro r hr med hbody
      exact hperm.symm.subset (mem_values_of_get?
        (hunique r hr med hbody (countP_named_of_nodup hnd hr hbody)).1)

/-- C10, at a batch of four adds with "Aspirin" twice, served last request
first from the empty registry: the answers, and the one 201 and one 409 for
"Aspirin". -/
theorem concurrent_adds_serialised_witness :
    (serveAdds NewServer sampleSchedule).2.map (fun p => p.2.status) = [201, 201, 201, 409] ∧
    (serveAdds NewServer sampleSchedule).1.medications.keys = ["Ibuprofen", "Aspirin", "Zinc"] ∧
    (serveAdds NewServer sampleSchedule).2.countP (answered "Aspirin" 201) = 1 ∧
    (serveAdds NewServer sampleSchedule).2.countP (answered "Aspirin" 409) + 1 = 2 ∧
    (∃ meds, getAllMedications (serveAdds NewServer sampleSchedule).1
        ["Zinc", "Ibuprofen", "Aspirin"] (nameRequest "")
          = ((serveAdds NewServer sampleSchedule).1, ⟨200, Body.medications meds⟩) ∧
      zinc ∈ meds ∧ ibuprofen ∈ meds) := by
  have hdec : ∀ r ∈ sampleBatch, ∃ med, r.body = some med ∧
      med.Name ∉ NewServer.medications.keys := by
    intro r _
    cases hb : r.body with
    | none => exact absurd hb (by
        have hall : ∀ x ∈ sampleBatch, x.body ≠ none := by decide
        exact hall r ‹r ∈ sampleBatch›)
    | some med => exact ⟨med, rfl, by simp [NewServer, MedMap.keys, MedMap.empty]⟩
  have h := concurrent_adds_serialised NewServer sampleBatch sampleSchedule
    ["Zinc", "Ibuprofen", "Aspirin"] (nameRequest "") hdec (List.reverse_perm sampleBatch)
    (by decide)
  obtain ⟨meds, hres, huniq, _⟩ := h.2.2.2
  refine ⟨by decide, by decide, (h.2.2.1 (bodyRequest aspirin) (by simp [sampleBatch]) aspirin rfl).1,
    (h.2.2.1 (bodyRequest aspirin) (by simp [sampleBatch]) aspirin rfl).2, meds, hres, ?_, ?_⟩
  · exact (huniq (bodyRequest zinc) (by simp [sampleBatch]) zinc rfl (by decide)).1
  · exact (huniq (bodyRequest ibuprofen) (by simp [sampleBatch]) ibuprofen rfl (by decide)).1

end PillApp
